import Mathlib

/-!
Shallow embedding of the scrape/normalize/dedupe pipeline of
`comprehensive_scraper.js` (a Kenyan e-commerce deals scraper).

Modelling conventions:
* JavaScript numbers are modelled as exact rationals (`ℚ`); every numeric
  value the pipeline manipulates is produced by `parseFloat` on a decimal
  literal of the form `\d+(\.\d+)?`, which is exact in decimal.
* JavaScript `null`/`undefined` results are modelled with `Option`;
  JS truthiness of a string is `≠ ""`, of a number is `≠ 0`, of an
  `Option` is `isSome` combined with the value's own truthiness.
* DOM elements are abstracted by the text/attribute projections the
  extraction strategies read through their CSS selectors.
-/

attribute [local semireducible] Rat.add Rat.mul Rat.sub Rat.inv Rat.ofScientific

/-- JS `\s` (whitespace) character class, as used by the cleaning regex and
`String.prototype.trim`. -/
def isJsSpace (c : Char) : Bool :=
  c == ' ' || c == '\t' || c == '\n' || c == '\r' || c == '\x0b' || c == '\x0c' ||
  c == '\u00A0' || c == '\u1680' || ('\u2000' ≤ c && c ≤ '\u200A') ||
  c == '\u2028' || c == '\u2029' || c == '\u202F' || c == '\u205F' ||
  c == '\u3000' || c == '\uFEFF'

/-- `String.prototype.trim`: drop leading and trailing JS whitespace. -/
def jsTrim (l : List Char) : List Char :=
  (((l.dropWhile isJsSpace).reverse).dropWhile isJsSpace).reverse

/-- `trim` at the `String` level. -/
def jsTrimS (s : String) : String := String.mk (jsTrim s.data)

/-- Case-insensitive `[Kk]` of the cleaning regex. -/
def isK (c : Char) : Bool := c == 'k' || c == 'K'

/-- Case-insensitive `[Ss]` / `s` of the cleaning regex. -/
def isS (c : Char) : Bool := c == 's' || c == 'S'

/-- Case-insensitive `[Hh]` / `h` of the cleaning regex. -/
def isH (c : Char) : Bool := c == 'h' || c == 'H'

/-- Lookahead helper: the `n`-th character of `l`, or NUL when past the end
(NUL belongs to no character class used by the regex, so a missing
character simply fails every lookahead test). -/
def peek (l : List Char) (n : Nat) : Char := (l.drop n).headD '\x00'

/-- Length (in characters) of the match of the regex
`/[Kk][Ss][Hh]\.?|,|Shs?\.?|\s/i` at the head of `l`; `0` when no
alternative matches there.  Alternatives are tried in source order. -/
def matchLen (l : List Char) : Nat :=
  match l with
  | [] => 0
  | c1 :: rest =>
    if isK c1 && isS (peek rest 0) && isH (peek rest 1) then
      (if peek rest 2 == '.' then 4 else 3)
    else if c1 == ',' then 1
    else if isS c1 && isH (peek rest 0) then
      (if isS (peek rest 1) then (if peek rest 2 == '.' then 4 else 3)
       else if peek rest 1 == '.' then 3 else 2)
    else if isJsSpace c1 then 1
    else 0

/-- Fuel-indexed global replace of the cleaning regex by the empty string
(`priceText.replace(/[Kk][Ss][Hh]\.?|,|Shs?\.?|\s/gi, '')`): scan left to
right; where an alternative matches, delete the matched characters,
otherwise keep the character.  The fuel is only a structural-recursion
device; it is always instantiated with the list length. -/
def cleanCharsF : Nat → List Char → List Char
  | 0, l => l
  | _ + 1, [] => []
  | fuel + 1, c1 :: rest =>
    if matchLen (c1 :: rest) = 0 then c1 :: cleanCharsF fuel rest
    else cleanCharsF fuel (rest.drop (matchLen (c1 :: rest) - 1))

/-- Global replace of the currency/separator regex by the empty string. -/
def cleanChars (l : List Char) : List Char := cleanCharsF l.length l

/-- Decimal value of a digit list (most significant first). -/
def digitsToNat (l : List Char) : Nat :=
  l.foldl (fun a c => 10 * a + (c.toNat - 48)) 0

/-- JS `\d` character class. -/
def isDigitB (c : Char) : Bool := '0' ≤ c && c ≤ '9'

/-- Value of the regex match `/(\d+(?:\.\d+)?)/` starting at `l` (whose head
is known to be a digit), as parsed by `parseFloat`: greedy integer digits,
then an optional fractional part requiring at least one digit after the
dot. -/
def numberValueAt (l : List Char) : ℚ :=
  let ip := l.takeWhile isDigitB
  match l.dropWhile isDigitB with
  | '.' :: r2 =>
    let fp := r2.takeWhile isDigitB
    if fp = [] then (digitsToNat ip : ℚ)
    else (digitsToNat ip : ℚ) + mkRat (digitsToNat fp) (10 ^ fp.length)
  | _ => (digitsToNat ip : ℚ)

/-- Leftmost match of `/(\d+(?:\.\d+)?)/` in `l`, parsed by `parseFloat`;
`none` when `l` contains no digit. -/
def firstNumericValue : List Char → Option ℚ
  | [] => none
  | c :: cs => if isDigitB c then some (numberValueAt (c :: cs)) else firstNumericValue cs

/-- `extractPrice` of `comprehensive_scraper.js`: reject empty input, strip
currency tokens / separators / whitespace, take the first numeric
substring, and reject values that are truthy (nonzero) and below 100. -/
def extractPrice (priceText : String) : Option ℚ :=
  if priceText = "" then none
  else
    match firstNumericValue (jsTrim (cleanChars priceText.data)) with
    | none => none
    | some price => if price ≠ 0 ∧ price < 100 then none else some price

/-- Lower-casing of a single character as done by `toLowerCase` on the ASCII
range (product names and keywords in this pipeline are ASCII). -/
def lc (c : Char) : Char :=
  if 'A' ≤ c && c ≤ 'Z' then Char.ofNat (c.toNat + 32) else c

/-- `name.toLowerCase()` on the ASCII range. -/
def lowerStr (s : String) : String := String.mk (s.data.map lc)

/-- Boolean prefix test on character lists. -/
def isPrefixB : List Char → List Char → Bool
  | [], _ => true
  | _ :: _, [] => false
  | p :: ps, c :: cs => p == c && isPrefixB ps cs

/-- Boolean contiguous-substring test on character lists. -/
def isSubB (pat : List Char) : List Char → Bool
  | [] => pat.isEmpty
  | c :: t => isPrefixB pat (c :: t) || isSubB pat t

/-- `s.includes(pat)` (case-sensitive substring containment). -/
def containsStr (s pat : String) : Bool := isSubB pat.data s.data

/-- Keywords whose presence classifies a name as a phone. -/
def phoneKeywords : List String :=
  ["phone", "smartphone", "iphone", "android", "tecno", "infinix", "samsung", "xiaomi"]

/-- Keywords whose presence classifies a name as a laptop. -/
def laptopKeywords : List String :=
  ["laptop", "notebook", "macbook", "computer", "lenovo", "hp ", "dell", "asus"]

/-- `determineCategory` of `comprehensive_scraper.js`: `null` for a falsy
(empty) name, otherwise test the lower-cased name against the phone keyword
set first, then the laptop keyword set; no match yields `null`. -/
def determineCategory (name : String) : Option String :=
  if name = "" then none
  else
    let lowerName := lowerStr name
    if phoneKeywords.any (fun k => containsStr lowerName k) then some "phone"
    else if laptopKeywords.any (fun k => containsStr lowerName k) then some "laptop"
    else none

/-- `Math.round` on an exact rational: floor of `x + 1/2` (half rounds up),
which is the JS rounding convention. -/
def jsRound (x : ℚ) : ℤ := ⌊x + mkRat 1 2⌋

/-- `calculateDiscount` of `comprehensive_scraper.js`.  A missing price or a
zero price is falsy and yields the empty string, as does
`originalPrice <= currentPrice`; otherwise the rounded percentage is
rendered with a trailing percent sign. -/
def calculateDiscount (originalPrice currentPrice : Option ℚ) : String :=
  match originalPrice, currentPrice with
  | some ov, some cv =>
    if ov = 0 ∨ cv = 0 then ""
    else if ov ≤ cv then ""
    else toString (jsRound ((ov - cv) / ov * 100)) ++ "%"
  | _, _ => ""

/-- The product record built by the extraction strategies.  The `timestamp`
field of the JS record (wall-clock time of extraction) is omitted: no
pipeline decision reads it. -/
structure Product where
  shop : String
  name : String
  category : Option String
  currentPrice : ℚ
  originalPrice : ℚ
  discount : String
  url : String
  imageUrl : String
deriving DecidableEq

/-- JS number-to-string conversion as used in template literals, modelled
exactly for integer-valued prices (the only case the dedup theorems rely
on); a non-integer price falls back to Lean's rational rendering. -/
def numToString (q : ℚ) : String :=
  if q.den = 1 then toString q.num else toString q

/-- The dedup identity key `` `${product.name}-${product.currentPrice}-${product.shop}` ``. -/
def productKey (p : Product) : String :=
  p.name ++ "-" ++ numToString p.currentPrice ++ "-" ++ p.shop

/-- The `filter`-over-a-mutable-`Set` loop of `removeDuplicates`, with the
set of seen keys made explicit. -/
def removeDupAux : List String → List Product → List Product
  | _, [] => []
  | seen, p :: ps =>
    if seen.contains (productKey p) then removeDupAux seen ps
    else p :: removeDupAux (productKey p :: seen) ps

/-- `removeDuplicates` of `comprehensive_scraper.js`. -/
def removeDuplicates (products : List Product) : List Product :=
  removeDupAux [] products

/-- A product DOM element, abstracted by the selector projections the three
extraction strategies read: each text field is the raw `.text()` of the
named selector (the strategies apply `trim` themselves), each attribute is
`none` when the attribute is absent. -/
structure Element where
  nameText : String
  prcText : String
  oldText : String
  dsctText : String
  href : Option String
  dataSrc : Option String
  src : Option String
  titleNameText : String
  pricePrcText : String
  h3TitleText : String
  priceCostText : String
deriving DecidableEq

/-- JS string `a || b`: the empty string is falsy. -/
def strOr (a b : String) : String := if a = "" then b else a

/-- Truthiness of an optional JS number: present and nonzero. -/
def isTruthyQ : Option ℚ → Bool
  | none => false
  | some v => !(v == 0)

/-- JS `a || b` on optional numbers (`null` and `0` are falsy). -/
def qOr (a b : Option ℚ) : Option ℚ := if isTruthyQ a then a else b

/-- Truthiness of an optional JS string: present and nonempty. -/
def isTruthyS : Option String → Bool
  | none => false
  | some s => !(s == "")

/-- `imageElement.attr('data-src') || imageElement.attr('src') || ''`. -/
def jumiaImage (dataSrc src : Option String) : String :=
  if isTruthyS dataSrc then dataSrc.getD ""
  else if isTruthyS src then src.getD "" else ""

/-- `relativeUrl ? `https://www.jumia.co.ke${relativeUrl}` : ''`. -/
def jumiaUrl (href : Option String) : String :=
  if isTruthyS href then "https://www.jumia.co.ke" ++ href.getD "" else ""

/-- `extractJumiaProduct` of `comprehensive_scraper.js`. -/
def extractJumiaProduct (e : Element) (shopName : String) : Option Product :=
  let name := strOr (jsTrimS e.nameText) "Unknown Product"
  let currentPrice := extractPrice (jsTrimS e.prcText)
  let originalPrice := qOr (extractPrice (jsTrimS e.oldText)) currentPrice
  let discount := strOr (jsTrimS e.dsctText) (calculateDiscount originalPrice currentPrice)
  if name = "" ∨ isTruthyQ currentPrice = false then none
  else
    match currentPrice, originalPrice with
    | some cv, some ov =>
      some { shop := shopName, name := name, category := determineCategory name,
             currentPrice := cv, originalPrice := ov, discount := discount,
             url := jumiaUrl e.href, imageUrl := jumiaImage e.dataSrc e.src }
    | _, _ => none

/-- `extractKilimallProduct` of `comprehensive_scraper.js`. -/
def extractKilimallProduct (e : Element) (shopName : String) : Option Product :=
  let name := strOr (jsTrimS e.titleNameText) "Unknown Product"
  let price := extractPrice (jsTrimS e.pricePrcText)
  if name = "" ∨ isTruthyQ price = false then none
  else
    match price with
    | some pv =>
      some { shop := shopName, name := name, category := determineCategory name,
             currentPrice := pv, originalPrice := pv, discount := "",
             url := "", imageUrl := "" }
    | none => none

/-- `extractGenericProduct` of `comprehensive_scraper.js`. -/
def extractGenericProduct (e : Element) (shopName : String) : Option Product :=
  let name := strOr (jsTrimS e.h3TitleText) "Unknown Product"
  let price := extractPrice (jsTrimS e.priceCostText)
  if name = "" ∨ isTruthyQ price = false then none
  else
    match price with
    | some pv =>
      some { shop := shopName, name := name, category := determineCategory name,
             currentPrice := pv, originalPrice := pv, discount := "",
             url := "", imageUrl := "" }
    | none => none

/-- `extractProductInfo`: strategy dispatch by substring match on the shop
display name. -/
def extractProductInfo (e : Element) (shopName : String) : Option Product :=
  if containsStr shopName "Jumia" then extractJumiaProduct e shopName
  else if containsStr shopName "Kilimall" then extractKilimallProduct e shopName
  else extractGenericProduct e shopName

/-- `MAX_PRICE` (10,000 KES). -/
def MAX_PRICE : ℚ := 10000

/-- The per-element loop body of `scrapePage`: build a candidate through the
strategy dispatch and keep it only when it is truthy, its `currentPrice` is
truthy and at most `MAX_PRICE`, and its category is phone or laptop. -/
def processElements (elems : List Element) (shopName : String) : List Product :=
  match elems with
  | [] => []
  | e :: rest =>
    match extractProductInfo e shopName with
    | some p =>
      if p.currentPrice ≠ 0 ∧ p.currentPrice ≤ MAX_PRICE ∧
         (p.category = some "phone" ∨ p.category = some "laptop") then
        p :: processElements rest shopName
      else processElements rest shopName
    | none => processElements rest shopName

/-- One page fetch, abstracted: `none` models a fetch/parse failure (the
`catch` in `scrapePage` turns it into an empty product list), `some elems`
the product elements located by the container selectors (empty when no
container matched). -/
def scrapePage (fetch : String → Option (List Element)) (url : String)
    (shopName : String) : List Product :=
  match fetch url with
  | none => []
  | some elems => processElements elems shopName

/-- Shop configuration. -/
structure Shop where
  name : String
  baseUrl : String
  flashSalesUrl : String
  searchUrls : List String
deriving DecidableEq

/-- `scrapeShop`: flash-sale page first, then each category page in order,
concatenating the per-page results.  `scrapePage` never throws (it catches
its own failures), so the surrounding `try` never aborts the loop. -/
def scrapeShop (fetch : String → Option (List Element)) (shop : Shop) : List Product :=
  scrapePage fetch shop.flashSalesUrl shop.name ++
    (shop.searchUrls.map (fun u => scrapePage fetch u shop.name)).flatten

/-- The `SHOPS` configuration table. -/
def SHOPS : List Shop :=
  [ { name := "Jumia Kenya", baseUrl := "https://www.jumia.co.ke",
      flashSalesUrl := "https://www.jumia.co.ke/mlp-flash-sales/",
      searchUrls := ["https://www.jumia.co.ke/laptops/",
                     "https://www.jumia.co.ke/smartphones/"] },
    { name := "Kilimall Kenya", baseUrl := "https://www.kilimall.co.ke",
      flashSalesUrl := "https://www.kilimall.co.ke/new-flash-sale.html",
      searchUrls := ["https://www.kilimall.co.ke/kilimall-flash-sale-laptop-c-10000007.html",
                     "https://www.kilimall.co.ke/kilimall-flash-sale-phone-c-10000001.html"] } ]

/-- The shop loop of `main`: concatenate every shop's products. -/
def gatherAll (fetch : String → Option (List Element)) (shops : List Shop) : List Product :=
  (shops.map (fun sh => scrapeShop fetch sh)).flatten

/-- The comparator `(a, b) => a.currentPrice - b.currentPrice` as an order. -/
def priceLE (a b : Product) : Prop := a.currentPrice ≤ b.currentPrice

instance : DecidableRel priceLE := fun a b => inferInstanceAs (Decidable (_ ≤ _))

instance : IsTotal Product priceLE := ⟨fun a b => le_total a.currentPrice b.currentPrice⟩

instance : IsTrans Product priceLE := ⟨fun _ _ _ => le_trans⟩

/-- `allProducts.sort((a, b) => a.currentPrice - b.currentPrice)`: a stable
comparison sort, modelled by insertion sort on the same order. -/
def sortByPrice (l : List Product) : List Product := List.insertionSort priceLE l

/-- Shape of the output artifact (`timestamp` omitted as in `Product`). -/
structure Artifact where
  totalItems : Nat
  items : List Product
deriving DecidableEq

/-- The aggregation tail of `main` plus `saveResults`: dedupe, sort
ascending by price, wrap with the item count. -/
def buildOutput (allProducts : List Product) : Artifact :=
  let unique := removeDuplicates allProducts
  let sorted := sortByPrice unique
  { totalItems := sorted.length, items := sorted }

/-- The whole run of `main` over a shop list, with fetching abstracted. -/
def runPipeline (fetch : String → Option (List Element)) (shops : List Shop) : Artifact :=
  buildOutput (gatherAll fetch shops)

/-- Failure injection for the error-handling claims: behave as `fetch`
except that the page at `bad` fails. -/
def fetchKill (fetch : String → Option (List Element)) (bad : String) :
    String → Option (List Element) :=
  fun u => if u = bad then none else fetch u

/-- Colliding dedup-key pair: the hyphen-joined key does not separate the
triple components. -/
def prodA : Product :=
  { shop := "S", name := "X-100", category := none, currentPrice := 200,
    originalPrice := 200, discount := "", url := "", imageUrl := "" }

/-- Second record of the colliding pair: all three identity components
differ from `prodA`, yet the joined key string coincides. -/
def prodB : Product :=
  { shop := "200-S", name := "X", category := none, currentPrice := 100,
    originalPrice := 100, discount := "", url := "", imageUrl := "" }

/-- Two records identical in (name, currentPrice, shop) differing in `url`. -/
def dupU1 : Product :=
  { shop := "Jumia Kenya", name := "Tecno Spark", category := some "phone",
    currentPrice := 8500, originalPrice := 8500, discount := "",
    url := "https://www.jumia.co.ke/a", imageUrl := "" }

/-- Same identity triple as `dupU1`, different `url`. -/
def dupU2 : Product :=
  { shop := "Jumia Kenya", name := "Tecno Spark", category := some "phone",
    currentPrice := 8500, originalPrice := 8500, discount := "",
    url := "https://www.jumia.co.ke/b", imageUrl := "" }

/-- Jumia element whose scraped "original" price (5,000) is lower than its
current price (8,000). -/
def elemC1 : Element :=
  { nameText := "Tecno Phone", prcText := "KSh 8,000", oldText := "KSh 5,000",
    dsctText := "", href := none, dataSrc := none, src := none,
    titleNameText := "", pricePrcText := "", h3TitleText := "", priceCostText := "" }

/-- The record the Jumia strategy builds from `elemC1`: the scraped original
price is kept as-is, below the current price. -/
def prodC1 : Product :=
  { shop := "Jumia Kenya", name := "Tecno Phone", category := some "phone",
    currentPrice := 8000, originalPrice := 5000, discount := "", url := "",
    imageUrl := "" }

/-- Jumia element with no scraped original price. -/
def elemC1W : Element :=
  { nameText := "Tecno Phone", prcText := "KSh 8,500", oldText := "",
    dsctText := "", href := none, dataSrc := none, src := none,
    titleNameText := "", pricePrcText := "", h3TitleText := "", priceCostText := "" }

/-- The record built from `elemC1W`. -/
def prodC1W : Product :=
  { shop := "Jumia Kenya", name := "Tecno Phone", category := some "phone",
    currentPrice := 8500, originalPrice := 8500, discount := "", url := "",
    imageUrl := "" }

/-- Element as read by the Kilimall strategy. -/
def elemC10W : Element :=
  { nameText := "", prcText := "", oldText := "", dsctText := "",
    href := none, dataSrc := none, src := none,
    titleNameText := "Tecno Phone", pricePrcText := "KSh 8,500",
    h3TitleText := "", priceCostText := "" }

/-- The record the Kilimall strategy builds from `elemC10W`. -/
def prodC10W : Product :=
  { shop := "Kilimall Kenya", name := "Tecno Phone", category := some "phone",
    currentPrice := 8500, originalPrice := 8500, discount := "", url := "",
    imageUrl := "" }

/-- A successfully fetched page whose single product element is an accepted
phone, used to instantiate the pipeline-level claims. -/
def elemC2W : Element :=
  { nameText := "Tecno Spark Phone", prcText := "KSh 8,500", oldText := "",
    dsctText := "", href := none, dataSrc := none, src := none,
    titleNameText := "Tecno Spark Phone", pricePrcText := "KSh 8,500",
    h3TitleText := "", priceCostText := "" }

/-- Fetch stub: every page yields the single element `elemC2W`. -/
def fetchC2W : String → Option (List Element) := fun _ => some [elemC2W]

/-- The accepted Jumia record arising from `elemC2W`. -/
def prodC2W : Product :=
  { shop := "Jumia Kenya", name := "Tecno Spark Phone", category := some "phone",
    currentPrice := 8500, originalPrice := 8500, discount := "", url := "",
    imageUrl := "" }

/-- Prices [9200, 3000, 8500], pairwise-distinct names. -/
def prodC9a : Product :=
  { shop := "S", name := "A", category := some "phone", currentPrice := 9200,
    originalPrice := 9200, discount := "", url := "", imageUrl := "" }

/-- Second sort-order probe record (price 3000). -/
def prodC9b : Product :=
  { shop := "S", name := "B", category := some "phone", currentPrice := 3000,
    originalPrice := 3000, discount := "", url := "", imageUrl := "" }

/-- Third sort-order probe record (price 8500). -/
def prodC9c : Product :=
  { shop := "S", name := "C", category := some "laptop", currentPrice := 8500,
    originalPrice := 8500, discount := "", url := "", imageUrl := "" }

/-- Digit groups joined by comma thousands separators. -/
def sepDigits : List (List Char) → List Char
  | [] => []
  | [g] => g
  | g :: g2 :: gs => g ++ ',' :: sepDigits (g2 :: gs)

/-- Optional fractional tail of a numeral. -/
def dotPart (frac : List Char) : List Char := if frac = [] then [] else '.' :: frac

/-- A price string of the shape the claim quantifies over:
currency token, then spaces, then digits with optional thousands
separators and an optional decimal part. -/
def priceFormStr (tok : String) (n : Nat) (gs : List (List Char)) (frac : List Char) :
    String :=
  String.mk (tok.data ++ List.replicate n ' ' ++ (sepDigits gs ++ dotPart frac))

/-- The numeric value such a string denotes (separators removed). -/
def numeralVal (gs : List (List Char)) (frac : List Char) : ℚ :=
  (digitsToNat gs.flatten : ℚ) + mkRat (digitsToNat frac) (10 ^ frac.length)

/-- The closed set of currency spellings for which the parsing claim is
checked (the spellings the cleaning regex strips, plus the ISO code `KES`,
which survives cleaning but precedes the first numeric substring). -/
def currencyTokens : List String := ["KSh", "KSH", "Ksh", "ksh", "KES", "Sh", "Shs"]

/-- `Math.round` agrees with Mathlib's `round` on `ℚ`. -/
theorem jsRound_eq_round (x : ℚ) : jsRound x = round x := by
  rw [jsRound, round_eq]
  norm_num [show (mkRat 1 2 : ℚ) = 1 / 2 from by decide]

/-- `calculateDiscount` is empty whenever the original is at most the
current price. -/
theorem calculateDiscount_of_le (ov cv : ℚ) (h : ov ≤ cv) :
    calculateDiscount (some ov) (some cv) = "" := by
  simp only [calculateDiscount]
  by_cases h0 : ov = 0 ∨ cv = 0
  · rw [if_pos h0]
  · rw [if_neg h0, if_pos h]

/-- Claim C6: the Discount Calculator returns the empty string when either
price is missing or `original ≤ current`, and otherwise the rounded integer
percentage `round(((original - current) / original) * 100)` with a trailing
percent sign; in particular `original = 12000, current = 8500` yields
`"29%"`.  The computing branch is stated for nonzero prices (a zero price is
falsy in JS and is treated as missing by the code). -/
theorem claim_C6 (o c : ℚ) :
    calculateDiscount none none = "" ∧
    calculateDiscount (some o) none = "" ∧
    calculateDiscount none (some c) = "" ∧
    (o ≠ 0 → c ≠ 0 →
      calculateDiscount (some o) (some c) =
        if o ≤ c then "" else toString (round ((o - c) / o * 100)) ++ "%") ∧
    calculateDiscount (some 12000) (some 8500) = "29%" := by
  refine ⟨rfl, rfl, rfl, ?_, by decide⟩
  intro ho hc
  simp only [calculateDiscount]
  rw [if_neg (by tauto)]
  by_cases h : o ≤ c
  · rw [if_pos h, if_pos h]
  · rw [if_neg h, if_neg h, jsRound_eq_round]

/-- Claim C6 witness: the computing branch instantiated at
`original = 12000, current = 8500`. -/
theorem claim_C6_witness :
    calculateDiscount (some (12000 : ℚ)) (some 8500) =
      if (12000 : ℚ) ≤ 8500 then ""
      else toString (round (((12000 : ℚ) - 8500) / 12000 * 100)) ++ "%" :=
  (claim_C6 12000 8500).2.2.2.1 (by norm_num) (by norm_num)

/-- Claim C5: the Category Classifier is total with range
{phone, laptop, unclassified}, and a name matching both keyword sets
classifies as phone because the phone set is tested first. -/
theorem claim_C5 (s : String) :
    (determineCategory s = some "phone" ∨ determineCategory s = some "laptop" ∨
      determineCategory s = none) ∧
    (phoneKeywords.any (fun k => containsStr (lowerStr s) k) = true →
     laptopKeywords.any (fun k => containsStr (lowerStr s) k) = true →
     determineCategory s = some "phone") := by
  constructor
  · unfold determineCategory
    by_cases hs : s = ""
    · rw [if_pos hs]; tauto
    · rw [if_neg hs]
      by_cases hp : phoneKeywords.any (fun k => containsStr (lowerStr s) k) = true
      · rw [if_pos hp]; tauto
      · rw [if_neg hp]
        by_cases hl : laptopKeywords.any (fun k => containsStr (lowerStr s) k) = true
        · rw [if_pos hl]; tauto
        · rw [if_neg hl]; tauto
  · intro hp _hl
    have hs : s ≠ "" := by
      rintro rfl
      rw [show lowerStr "" = "" from rfl] at hp
      exact absurd hp (by decide)
    unfold determineCategory
    rw [if_neg hs, if_pos hp]

/-- Claim C5 witness: a name containing both a phone keyword ("phone") and a
laptop keyword ("lenovo") classifies as phone. -/
theorem claim_C5_witness : determineCategory "Smartphone Lenovo" = some "phone" :=
  (claim_C5 "Smartphone Lenovo").2 (by decide) (by decide)

/-- Claim C3 counterexample: on the input "0" the first numeric substring
parses to 0, which is strictly below 100, yet the Price Parser returns the
value 0 rather than rejection (`0` is falsy in JS, so the sub-100 filter
`price && price < 100` does not fire). -/
theorem claim_C3_counterexample :
    firstNumericValue (jsTrim (cleanChars ("0".data))) = some 0 ∧
    (0 : ℚ) < 100 ∧ extractPrice "0" = some 0 ∧ extractPrice "0" ≠ none := by decide

/-- Claim C3 (amended): when the first numeric substring of the cleaned
input parses to a value below 100, the Price Parser rejects if that value is
nonzero; a value of exactly 0 is returned as the price 0 (callers treat 0 as
absent via truthiness). -/
theorem claim_C3_amended (s : String) (v : ℚ)
    (h : firstNumericValue (jsTrim (cleanChars s.data)) = some v) (hlt : v < 100) :
    extractPrice s = if v = 0 then some 0 else none := by
  have hs : s ≠ "" := by
    rintro rfl
    rw [show jsTrim (cleanChars ("".data)) = [] from rfl,
        show firstNumericValue [] = none from rfl] at h
    exact absurd h (by simp)
  unfold extractPrice
  rw [if_neg hs, h]
  by_cases hv : v = 0
  · subst hv
    simp
  · simp [hv, hlt]

/-- Claim C3 witness: the sub-100 value 54 is rejected. -/
theorem claim_C3_witness : extractPrice "KSh 54" = none := by
  have h := claim_C3_amended "KSh 54" 54 (by decide) (by decide)
  rw [if_neg (by norm_num)] at h
  exact h

/-- Claim C4 counterexample: two records differing in all three identity
components share the hyphen-joined key `"X-100-200-S"`, so the second is
dropped even though the claim says both are retained. -/
theorem claim_C4_counterexample :
    prodA.name ≠ prodB.name ∧ prodA.currentPrice ≠ prodB.currentPrice ∧
    prodA.shop ≠ prodB.shop ∧ removeDuplicates [prodA, prodB] = [prodA] := by decide

/-- Claim C4 (amended): deduplication merges records exactly when their
hyphen-joined key strings `name-currentPrice-shop` coincide, retaining the
first encountered; agreement on the (name, currentPrice, shop) triple
implies key agreement (so url-only variants merge), but distinct triples
whose joined strings coincide are also merged. -/
theorem claim_C4_amended (p1 p2 : Product) :
    removeDuplicates [p1, p2] =
      (if productKey p1 = productKey p2 then [p1] else [p1, p2]) ∧
    (p1.name = p2.name → p1.currentPrice = p2.currentPrice → p1.shop = p2.shop →
      productKey p1 = productKey p2) := by
  constructor
  · by_cases h : productKey p1 = productKey p2
    · simp [removeDuplicates, removeDupAux, List.contains, List.elem, h, beq_iff_eq]
    · have h2 : (productKey p2 == productKey p1) = false :=
        beq_eq_false_iff_ne.mpr (fun hx => h hx.symm)
      simp [removeDuplicates, removeDupAux, List.contains, List.elem, h, h2]
  · intro h1 h2 h3
    simp [productKey, h1, h2, h3]

/-- Claim C4 witness: records identical in the identity triple but differing
in `url` are merged, retaining the first encountered. -/
theorem claim_C4_witness : removeDuplicates [dupU1, dupU2] = [dupU1] := by
  have h := claim_C4_amended dupU1 dupU2
  rw [h.1, if_pos (h.2 rfl rfl rfl)]

/-- Claim C1 counterexample: both scraped prices parse to numbers
(5000 and 8000), yet the built record has `originalPrice` (5000) strictly
below `currentPrice` (8000): the code keeps a lower scraped original price
as-is instead of collapsing it to the current price. -/
theorem claim_C1_counterexample :
    extractPrice (jsTrimS elemC1.oldText) = some 5000 ∧
    extractPrice (jsTrimS elemC1.prcText) = some 8000 ∧
    extractJumiaProduct elemC1 "Jumia Kenya" = some prodC1 ∧
    prodC1.originalPrice < prodC1.currentPrice := by decide

/-- Claim C1 (amended): in every record built by the Jumia strategy,
`originalPrice` collapses to `currentPrice` exactly when the scraped
original price is absent (fails to parse, or parses to the falsy 0);
when the scraped original parses to a nonzero value it is kept verbatim —
even when lower than `currentPrice` — and the `discount` field is empty
whenever the scraped badge text is empty and `originalPrice ≤ currentPrice`. -/
theorem claim_C1_amended (e : Element) (shopName : String) (p : Product)
    (hp : extractJumiaProduct e shopName = some p) :
    (isTruthyQ (extractPrice (jsTrimS e.oldText)) = false →
       p.originalPrice = p.currentPrice) ∧
    (∀ v : ℚ, extractPrice (jsTrimS e.oldText) = some v → v ≠ 0 →
       p.originalPrice = v) ∧
    (jsTrimS e.dsctText = "" → p.originalPrice ≤ p.currentPrice →
       p.discount = "") := by
  simp only [extractJumiaProduct] at hp
  split at hp
  · exact absurd hp (by simp)
  · split at hp
    · next cv ov heqc heqo =>
      rw [Option.some_inj] at hp
      subst hp
      refine ⟨?_, ?_, ?_⟩
      · intro hOld
        rw [qOr, if_neg (by rw [hOld]; simp)] at heqo
        rw [heqc] at heqo
        simp only [Option.some_inj] at heqo
        simp [heqo]
      · intro v hv hv0
        rw [qOr, if_pos (by rw [hv]; simp [isTruthyQ, hv0])] at heqo
        rw [hv] at heqo
        simp only [Option.some_inj] at heqo
        simp [heqo]
      · intro hd hle
        show strOr (jsTrimS e.dsctText) (calculateDiscount
            (qOr (extractPrice (jsTrimS e.oldText)) (extractPrice (jsTrimS e.prcText)))
            (extractPrice (jsTrimS e.prcText))) = ""
        rw [hd, heqo, heqc, strOr, if_pos rfl]
        exact calculateDiscount_of_le ov cv hle
    · exact absurd hp (by simp)

/-- Claim C1 witness: with an absent scraped original price, `originalPrice`
collapses to `currentPrice`. -/
theorem claim_C1_witness : prodC1W.originalPrice = prodC1W.currentPrice :=
  (claim_C1_amended elemC1W "Jumia Kenya" prodC1W (by decide)).1 (by decide)

/-- Claim C10: every record produced by the Kilimall strategy or the generic
fallback strategy — hence by any non-Jumia shop through the dispatch — has
empty `discount`, `url` and `imageUrl`, and `originalPrice` equal to
`currentPrice`; only the Jumia strategy can produce anything else. -/
theorem claim_C10 (e : Element) (shopName : String) (p : Product) :
    (extractKilimallProduct e shopName = some p →
       p.discount = "" ∧ p.url = "" ∧ p.imageUrl = "" ∧
       p.originalPrice = p.currentPrice) ∧
    (extractGenericProduct e shopName = some p →
       p.discount = "" ∧ p.url = "" ∧ p.imageUrl = "" ∧
       p.originalPrice = p.currentPrice) ∧
    (containsStr shopName "Jumia" = false → extractProductInfo e shopName = some p →
       p.discount = "" ∧ p.url = "" ∧ p.imageUrl = "" ∧
       p.originalPrice = p.currentPrice) := by
  have hk : extractKilimallProduct e shopName = some p →
      p.discount = "" ∧ p.url = "" ∧ p.imageUrl = "" ∧
      p.originalPrice = p.currentPrice := by
    intro hp
    simp only [extractKilimallProduct] at hp
    split at hp
    · exact absurd hp (by simp)
    · split at hp
      · next pv heq =>
        rw [Option.some_inj] at hp
        subst hp
        simp
      · exact absurd hp (by simp)
  have hg : extractGenericProduct e shopName = some p →
      p.discount = "" ∧ p.url = "" ∧ p.imageUrl = "" ∧
      p.originalPrice = p.currentPrice := by
    intro hp
    simp only [extractGenericProduct] at hp
    split at hp
    · exact absurd hp (by simp)
    · split at hp
      · next pv heq =>
        rw [Option.some_inj] at hp
        subst hp
        simp
      · exact absurd hp (by simp)
  refine ⟨hk, hg, ?_⟩
  intro hj hp
  rw [extractProductInfo, hj] at hp
  simp only [Bool.false_eq_true, if_false] at hp
  by_cases hkil : containsStr shopName "Kilimall" = true
  · rw [if_pos hkil] at hp
    exact hk hp
  · rw [if_neg hkil] at hp
    exact hg hp

/-- Claim C10 witness: a Kilimall record has the empty derived fields and
`originalPrice = currentPrice`. -/
theorem claim_C10_witness :
    prodC10W.discount = "" ∧ prodC10W.url = "" ∧ prodC10W.imageUrl = "" ∧
    prodC10W.originalPrice = prodC10W.currentPrice :=
  (claim_C10 elemC10W "Kilimall Kenya" prodC10W).2.2 (by decide) (by decide)

/-- Every product kept by the per-element loop passed the acceptance gate:
price at most `MAX_PRICE` and category phone or laptop. -/
theorem mem_processElements (elems : List Element) (shopName : String) (p : Product)
    (h : p ∈ processElements elems shopName) :
    p.currentPrice ≤ MAX_PRICE ∧
    (p.category = some "phone" ∨ p.category = some "laptop") := by
  induction elems with
  | nil => simp [processElements] at h
  | cons e rest ih =>
    rw [processElements] at h
    rcases hx : extractProductInfo e shopName with _ | q
    · rw [hx] at h; exact ih h
    · rw [hx] at h
      dsimp only at h
      by_cases hq : q.currentPrice ≠ 0 ∧ q.currentPrice ≤ MAX_PRICE ∧
          (q.category = some "phone" ∨ q.category = some "laptop")
      · rw [if_pos hq] at h
        rcases List.mem_cons.mp h with rfl | h2
        · exact ⟨hq.2.1, hq.2.2⟩
        · exact ih h2
      · rw [if_neg hq] at h; exact ih h

/-- Membership in a page's products comes from the element loop. -/
theorem mem_scrapePage (fetch : String → Option (List Element)) (url shopName : String)
    (p : Product) (h : p ∈ scrapePage fetch url shopName) :
    p.currentPrice ≤ MAX_PRICE ∧
    (p.category = some "phone" ∨ p.category = some "laptop") := by
  rw [scrapePage] at h
  rcases hf : fetch url with _ | elems
  · rw [hf] at h; simp at h
  · rw [hf] at h; exact mem_processElements elems shopName p h

/-- Membership in a shop's products comes from one of its pages. -/
theorem mem_scrapeShop (fetch : String → Option (List Element)) (shop : Shop)
    (p : Product) (h : p ∈ scrapeShop fetch shop) :
    p.currentPrice ≤ MAX_PRICE ∧
    (p.category = some "phone" ∨ p.category = some "laptop") := by
  rw [scrapeShop] at h
  rcases List.mem_append.mp h with h1 | h2
  · exact mem_scrapePage fetch shop.flashSalesUrl shop.name p h1
  · rcases List.mem_flatten.mp h2 with ⟨l, hl, hpl⟩
    rcases List.mem_map.mp hl with ⟨u, _, rfl⟩
    exact mem_scrapePage fetch u shop.name p hpl

/-- `removeDupAux` only ever keeps members of its input. -/
theorem mem_removeDupAux (l : List Product) :
    ∀ (seen : List String) (p : Product), p ∈ removeDupAux seen l → p ∈ l := by
  induction l with
  | nil => intro seen p h; simp [removeDupAux] at h
  | cons q rest ih =>
    intro seen p h
    rw [removeDupAux] at h
    by_cases hc : seen.contains (productKey q) = true
    · rw [if_pos hc] at h
      exact List.mem_cons_of_mem q (ih seen p h)
    · rw [if_neg hc] at h
      rcases List.mem_cons.mp h with rfl | h2
      · exact List.mem_cons_self p rest
      · exact List.mem_cons_of_mem q (ih _ p h2)

/-- Claim C2: every item of the final output artifact has category phone or
laptop and `currentPrice` at most the configured maximum (10,000); the
aggregation steps (dedupe, sort) only permute or drop records, so every item
descends from a candidate that passed the acceptance gate of `scrapePage`. -/
theorem claim_C2 (fetch : String → Option (List Element)) (shops : List Shop)
    (p : Product) (h : p ∈ (runPipeline fetch shops).items) :
    (p.category = some "phone" ∨ p.category = some "laptop") ∧
    p.currentPrice ≤ MAX_PRICE := by
  simp only [runPipeline, buildOutput] at h
  have h1 : p ∈ removeDuplicates (gatherAll fetch shops) :=
    ((List.perm_insertionSort priceLE _).mem_iff).mp h
  have h2 : p ∈ gatherAll fetch shops := mem_removeDupAux _ _ p h1
  rcases List.mem_flatten.mp h2 with ⟨l, hl, hpl⟩
  rcases List.mem_map.mp hl with ⟨sh, _, rfl⟩
  have := mem_scrapeShop fetch sh p hpl
  exact ⟨this.2, this.1⟩

/-- Claim C2 witness: a concrete retained item satisfies the gate. -/
theorem claim_C2_witness :
    (prodC2W.category = some "phone" ∨ prodC2W.category = some "laptop") ∧
    prodC2W.currentPrice ≤ MAX_PRICE :=
  claim_C2 fetchC2W SHOPS prodC2W (by decide)

/-- Killing one URL turns exactly that page's contribution into the empty
list and leaves every other page untouched. -/
theorem scrapePage_fetchKill (fetch : String → Option (List Element))
    (bad u shopName : String) :
    scrapePage (fetchKill fetch bad) u shopName =
      if u = bad then [] else scrapePage fetch u shopName := by
  by_cases h : u = bad <;> simp [scrapePage, fetchKill, h]

/-- Claim C8: a fetch failure on a single page yields exactly zero products
from that page and leaves the contributions of every other page of the shop
intact: in particular a failing flash-sale page still leaves every category
page's products in the shop's result, in order. -/
theorem claim_C8 (fetch : String → Option (List Element)) (bad : String) (shop : Shop) :
    scrapePage (fetchKill fetch bad) bad shop.name = [] ∧
    scrapeShop (fetchKill fetch bad) shop =
      (if shop.flashSalesUrl = bad then []
       else scrapePage fetch shop.flashSalesUrl shop.name) ++
      (shop.searchUrls.map
        (fun u => if u = bad then [] else scrapePage fetch u shop.name)).flatten := by
  constructor
  · simp [scrapePage, fetchKill]
  · simp only [scrapeShop, scrapePage_fetchKill]

/-- Claim C9: the output artifact's items are sorted ascending by
`currentPrice`, and accepted prices [9200, 3000, 8500] come out as
[3000, 8500, 9200]. -/
theorem claim_C9 (fetch : String → Option (List Element)) (shops : List Shop) :
    List.Sorted priceLE (runPipeline fetch shops).items ∧
    (buildOutput [prodC9a, prodC9b, prodC9c]).items.map Product.currentPrice =
      [3000, 8500, 9200] := by
  constructor
  · simp only [runPipeline, buildOutput]
    exact List.sorted_insertionSort priceLE _
  · decide

/-- Dropping cannot lengthen a list. -/
theorem drop_len_le (n : Nat) (r : List Char) : (r.drop n).length ≤ r.length := by
  simp [List.length_drop]

/-- `cleanCharsF` does not depend on the fuel once the fuel covers the list
length. -/
theorem cleanCharsF_congr :
    ∀ f1 f2 : Nat, ∀ l : List Char, l.length ≤ f1 → l.length ≤ f2 →
      cleanCharsF f1 l = cleanCharsF f2 l := by
  intro f1
  induction f1 with
  | zero =>
    intro f2 l h1 _
    have hl : l = [] := List.length_eq_zero.mp (Nat.le_zero.mp h1)
    subst hl
    cases f2 <;> rfl
  | succ f ih =>
    intro f2 l h1 h2
    cases l with
    | nil => cases f2 <;> rfl
    | cons c r =>
      cases f2 with
      | zero => exact absurd h2 (by simp)
      | succ f2p =>
        show (if matchLen (c :: r) = 0 then c :: cleanCharsF f r
              else cleanCharsF f (r.drop (matchLen (c :: r) - 1))) =
             (if matchLen (c :: r) = 0 then c :: cleanCharsF f2p r
              else cleanCharsF f2p (r.drop (matchLen (c :: r) - 1)))
        have hr : r.length ≤ f := by simpa using h1
        have hr2 : r.length ≤ f2p := by simpa using h2
        by_cases hm : matchLen (c :: r) = 0
        · rw [if_pos hm, if_pos hm, ih f2p r hr hr2]
        · rw [if_neg hm, if_neg hm,
              ih f2p (r.drop (matchLen (c :: r) - 1))
                (le_trans (drop_len_le _ r) hr)
                (le_trans (drop_len_le _ r) hr2)]

/-- Unfolding equation of `cleanChars` on a nonempty list. -/
theorem cleanChars_cons (c : Char) (r : List Char) :
    cleanChars (c :: r) =
      if matchLen (c :: r) = 0 then c :: cleanChars r
      else cleanChars (r.drop (matchLen (c :: r) - 1)) := by
  show (if matchLen (c :: r) = 0 then c :: cleanCharsF r.length r
        else cleanCharsF r.length (r.drop (matchLen (c :: r) - 1))) = _
  by_cases hm : matchLen (c :: r) = 0
  · rw [if_pos hm, if_pos hm]
    rfl
  · rw [if_neg hm, if_neg hm]
    exact cleanCharsF_congr r.length _ _ (drop_len_le _ r) le_rfl

/-- A leading space is deleted by the cleaning regex. -/
theorem clean_space (r : List Char) : cleanChars (' ' :: r) = cleanChars r := by
  rw [cleanChars_cons]
  rfl

/-- Leading spaces are deleted by the cleaning regex. -/
theorem clean_spaces (m : Nat) (r : List Char) :
    cleanChars (List.replicate m ' ' ++ r) = cleanChars r := by
  induction m with
  | zero => rfl
  | succ k ih => rw [List.replicate_succ, List.cons_append, clean_space, ih]

/-- Token "KSh" followed by a space is wholly removed. -/
theorem clean_tok_KSh (r : List Char) :
    cleanChars ('K' :: 'S' :: 'h' :: ' ' :: r) = cleanChars r := by
  rw [cleanChars_cons, show matchLen ('K' :: 'S' :: 'h' :: ' ' :: r) = 3 from rfl,
      if_neg (by decide), show ('S' :: 'h' :: ' ' :: r).drop (3 - 1) = ' ' :: r from rfl]
  exact clean_space r

/-- Token "KSH" followed by a space is wholly removed. -/
theorem clean_tok_KSH (r : List Char) :
    cleanChars ('K' :: 'S' :: 'H' :: ' ' :: r) = cleanChars r := by
  rw [cleanChars_cons, show matchLen ('K' :: 'S' :: 'H' :: ' ' :: r) = 3 from rfl,
      if_neg (by decide), show ('S' :: 'H' :: ' ' :: r).drop (3 - 1) = ' ' :: r from rfl]
  exact clean_space r

/-- Token "Ksh" followed by a space is wholly removed. -/
theorem clean_tok_Ksh (r : List Char) :
    cleanChars ('K' :: 's' :: 'h' :: ' ' :: r) = cleanChars r := by
  rw [cleanChars_cons, show matchLen ('K' :: 's' :: 'h' :: ' ' :: r) = 3 from rfl,
      if_neg (by decide), show ('s' :: 'h' :: ' ' :: r).drop (3 - 1) = ' ' :: r from rfl]
  exact clean_space r

/-- Token "ksh" followed by a space is wholly removed. -/
theorem clean_tok_ksh (r : List Char) :
    cleanChars ('k' :: 's' :: 'h' :: ' ' :: r) = cleanChars r := by
  rw [cleanChars_cons, show matchLen ('k' :: 's' :: 'h' :: ' ' :: r) = 3 from rfl,
      if_neg (by decide), show ('s' :: 'h' :: ' ' :: r).drop (3 - 1) = ' ' :: r from rfl]
  exact clean_space r

/-- Token "Sh" followed by a space is wholly removed. -/
theorem clean_tok_Sh (r : List Char) :
    cleanChars ('S' :: 'h' :: ' ' :: r) = cleanChars r := by
  rw [cleanChars_cons, show matchLen ('S' :: 'h' :: ' ' :: r) = 2 from rfl,
      if_neg (by decide), show ('h' :: ' ' :: r).drop (2 - 1) = ' ' :: r from rfl]
  exact clean_space r

/-- Token "Shs" followed by a space is wholly removed. -/
theorem clean_tok_Shs (r : List Char) :
    cleanChars ('S' :: 'h' :: 's' :: ' ' :: r) = cleanChars r := by
  rw [cleanChars_cons, show matchLen ('S' :: 'h' :: 's' :: ' ' :: r) = 3 from rfl,
      if_neg (by decide), show ('h' :: 's' :: ' ' :: r).drop (3 - 1) = ' ' :: r from rfl]
  exact clean_space r

/-- Token "KES" followed by a space: the regexp removes none of its letters
(it is not a spelling the cleaning regex knows), so they survive cleaning. -/
theorem clean_tok_KES (r : List Char) :
    cleanChars ('K' :: 'E' :: 'S' :: ' ' :: r) = 'K' :: 'E' :: 'S' :: cleanChars r := by
  rw [cleanChars_cons, show matchLen ('K' :: 'E' :: 'S' :: ' ' :: r) = 0 from rfl,
      if_pos rfl]
  rw [cleanChars_cons, show matchLen ('E' :: 'S' :: ' ' :: r) = 0 from rfl, if_pos rfl]
  rw [cleanChars_cons, show matchLen ('S' :: ' ' :: r) = 0 from rfl, if_pos rfl]
  rw [clean_space]

/-- A digit is distinct from any non-digit character. -/
theorem digit_beq_false (c d : Char) (h : isDigitB c = true) (hd : isDigitB d = false) :
    (c == d) = false := by
  cases hcd : c == d
  · rfl
  · have : c = d := eq_of_beq hcd
    subst this
    rw [h] at hd
    exact absurd hd (by simp)

/-- A digit is not a `k`. -/
theorem digit_not_isK (c : Char) (h : isDigitB c = true) : isK c = false := by
  rw [isK, digit_beq_false c 'k' h (by decide), digit_beq_false c 'K' h (by decide)]
  rfl

/-- A digit is not an `s`. -/
theorem digit_not_isS (c : Char) (h : isDigitB c = true) : isS c = false := by
  rw [isS, digit_beq_false c 's' h (by decide), digit_beq_false c 'S' h (by decide)]
  rfl

/-- A digit is not JS whitespace. -/
theorem digit_not_space (c : Char) (h : isDigitB c = true) : isJsSpace c = false := by
  have h9 : c ≤ '9' := by
    have h2 := h
    rw [isDigitB, Bool.and_eq_true] at h2
    exact of_decide_eq_true h2.2
  have hlt : ¬ ('\u2000' ≤ c) := fun hc => absurd (le_trans hc h9) (by decide)
  rw [isJsSpace,
      digit_beq_false c ' ' h (by decide), digit_beq_false c '\t' h (by decide),
      digit_beq_false c '\n' h (by decide), digit_beq_false c '\r' h (by decide),
      digit_beq_false c '\x0b' h (by decide), digit_beq_false c '\x0c' h (by decide),
      digit_beq_false c '\u00A0' h (by decide), digit_beq_false c '\u1680' h (by decide),
      digit_beq_false c '\u2028' h (by decide), digit_beq_false c '\u2029' h (by decide),
      digit_beq_false c '\u202F' h (by decide), digit_beq_false c '\u205F' h (by decide),
      digit_beq_false c '\u3000' h (by decide), digit_beq_false c '\uFEFF' h (by decide)]
  simp [hlt]

/-- `matchLen` sees no match at a digit. -/
theorem matchLen_digit (c : Char) (r : List Char) (h : isDigitB c = true) :
    matchLen (c :: r) = 0 := by
  rw [matchLen]
  rw [digit_not_isK c h, digit_beq_false c ',' h (by decide), digit_not_isS c h,
      digit_not_space c h]
  rfl

/-- The cleaning regex keeps every digit. -/
theorem clean_digit (c : Char) (r : List Char) (h : isDigitB c = true) :
    cleanChars (c :: r) = c :: cleanChars r := by
  rw [cleanChars_cons, matchLen_digit c r h, if_pos rfl]

/-- The cleaning regex deletes a comma. -/
theorem clean_comma (r : List Char) : cleanChars (',' :: r) = cleanChars r := by
  rw [cleanChars_cons, show matchLen (',' :: r) = 1 from rfl, if_neg (by decide)]
  rfl

/-- The cleaning regex keeps a dot (a bare `.` matches no alternative). -/
theorem clean_dot (r : List Char) : cleanChars ('.' :: r) = '.' :: cleanChars r := by
  rw [cleanChars_cons, show matchLen ('.' :: r) = 0 from rfl, if_pos rfl]

/-- Over a numeral region (digits, commas, dots) the cleaning regex is
exactly comma removal. -/
theorem clean_numeral (l : List Char)
    (h : ∀ c ∈ l, isDigitB c = true ∨ c = ',' ∨ c = '.') :
    cleanChars l = l.filter (fun c => !(c == ',')) := by
  induction l with
  | nil => rfl
  | cons c r ih =>
    have hc := h c (List.mem_cons_self c r)
    have hr : ∀ x ∈ r, isDigitB x = true ∨ x = ',' ∨ x = '.' :=
      fun x hx => h x (List.mem_cons_of_mem c hx)
    rcases hc with hd | rfl | rfl
    · rw [clean_digit c r hd, ih hr, List.filter_cons,
          if_pos (by rw [digit_beq_false c ',' hd (by decide)]; rfl)]
    · rw [clean_comma r, ih hr, List.filter_cons, if_neg (by simp)]
    · rw [clean_dot r, ih hr, List.filter_cons, if_pos (by decide)]

/-- Comma filtering keeps an all-digit list intact. -/
theorem filter_digits (l : List Char) (h : ∀ c ∈ l, isDigitB c = true) :
    l.filter (fun c => !(c == ',')) = l := by
  induction l with
  | nil => rfl
  | cons c r ih =>
    rw [List.filter_cons,
        if_pos (by rw [digit_beq_false c ',' (h c (List.mem_cons_self c r)) (by decide)]; rfl),
        ih (fun x hx => h x (List.mem_cons_of_mem c hx))]

/-- Dropping the leading run of `p` is the identity when no member
satisfies `p`. -/
theorem dropWhile_of_none (p : Char → Bool) (l : List Char)
    (h : ∀ c ∈ l, p c = false) : l.dropWhile p = l := by
  cases l with
  | nil => rfl
  | cons c r =>
    rw [List.dropWhile_cons, h c (List.mem_cons_self c r)]
    simp

/-- `jsTrim` is the identity on whitespace-free lists. -/
theorem jsTrim_of_no_space (l : List Char) (h : ∀ c ∈ l, isJsSpace c = false) :
    jsTrim l = l := by
  rw [jsTrim, dropWhile_of_none isJsSpace l h,
      dropWhile_of_none isJsSpace l.reverse (fun c hc => h c (List.mem_reverse.mp hc)),
      List.reverse_reverse]

/-- `takeWhile` passes an all-true block. -/
theorem takeWhile_all_append (p : Char → Bool) (d t : List Char)
    (h : ∀ c ∈ d, p c = true) : (d ++ t).takeWhile p = d ++ t.takeWhile p := by
  induction d with
  | nil => rfl
  | cons c r ih =>
    rw [List.cons_append, List.takeWhile_cons, h c (List.mem_cons_self c r),
        ih (fun x hx => h x (List.mem_cons_of_mem c hx))]
    rfl

/-- `dropWhile` skips an all-true block. -/
theorem dropWhile_all_append (p : Char → Bool) (d t : List Char)
    (h : ∀ c ∈ d, p c = true) : (d ++ t).dropWhile p = t.dropWhile p := by
  induction d with
  | nil => rfl
  | cons c r ih =>
    rw [List.cons_append, List.dropWhile_cons, h c (List.mem_cons_self c r)]
    simp only [if_pos rfl]
    exact ih (fun x hx => h x (List.mem_cons_of_mem c hx))

/-- `takeWhile` takes an all-true list whole. -/
theorem takeWhile_all (p : Char → Bool) (l : List Char) (h : ∀ c ∈ l, p c = true) :
    l.takeWhile p = l := by
  have := takeWhile_all_append p l [] h
  simpa using this

/-- `firstNumericValue` skips a non-digit head. -/
theorem fnv_skip (c : Char) (l : List Char) (h : isDigitB c = false) :
    firstNumericValue (c :: l) = firstNumericValue l := by
  rw [firstNumericValue, h]
  simp

/-- `firstNumericValue` on a pure integer numeral. -/
theorem fnv_int (d : List Char) (hd : ∀ c ∈ d, isDigitB c = true) (hne : d ≠ []) :
    firstNumericValue d = some ((digitsToNat d : ℚ)) := by
  cases d with
  | nil => exact absurd rfl hne
  | cons c r =>
    have ht : (c :: r).takeWhile isDigitB = c :: r := takeWhile_all isDigitB (c :: r) hd
    have hdr : (c :: r).dropWhile isDigitB = [] := by
      have h2 := dropWhile_all_append isDigitB (c :: r) [] hd
      simpa using h2
    rw [firstNumericValue, hd c (List.mem_cons_self c r)]
    simp only [numberValueAt, ht, hdr]
    simp

/-- `firstNumericValue` on a numeral with a fractional part. -/
theorem fnv_frac (d frac : List Char) (hd : ∀ c ∈ d, isDigitB c = true) (hne : d ≠ [])
    (hf : ∀ c ∈ frac, isDigitB c = true) (hfne : frac ≠ []) :
    firstNumericValue (d ++ '.' :: frac) =
      some ((digitsToNat d : ℚ) + mkRat (digitsToNat frac) (10 ^ frac.length)) := by
  cases d with
  | nil => exact absurd rfl hne
  | cons c r =>
    have ht : ((c :: r) ++ '.' :: frac).takeWhile isDigitB = c :: r := by
      rw [takeWhile_all_append isDigitB (c :: r) ('.' :: frac) hd,
          List.takeWhile_cons, show isDigitB '.' = false from rfl]
      simp
    have hdr : ((c :: r) ++ '.' :: frac).dropWhile isDigitB = '.' :: frac := by
      rw [dropWhile_all_append isDigitB (c :: r) ('.' :: frac) hd,
          List.dropWhile_cons, show isDigitB '.' = false from rfl]
      simp
    rw [List.cons_append, firstNumericValue, hd c (List.mem_cons_self c r)]
    rw [← List.cons_append]
    simp only [numberValueAt, ht, hdr]
    rw [takeWhile_all isDigitB frac hf]
    simp [hfne]

/-- Characters of `sepDigits` are group members or commas. -/
theorem mem_sepDigits (gs : List (List Char)) (c : Char) (h : c ∈ sepDigits gs) :
    (∃ g ∈ gs, c ∈ g) ∨ c = ',' := by
  induction gs with
  | nil => simp [sepDigits] at h
  | cons g rest ih =>
    cases rest with
    | nil =>
      left
      exact ⟨g, by simp, by simpa [sepDigits] using h⟩
    | cons g2 rs =>
      rw [sepDigits] at h
      rcases List.mem_append.mp h with h1 | h2
      · exact Or.inl ⟨g, by simp, h1⟩
      · rcases List.mem_cons.mp h2 with rfl | h3
        · exact Or.inr rfl
        · rcases ih h3 with ⟨g1, hg1, hc1⟩ | rfl
          · exact Or.inl ⟨g1, List.mem_cons_of_mem g hg1, hc1⟩
          · exact Or.inr rfl

/-- Comma filtering of `sepDigits` yields the digit groups flattened. -/
theorem filter_sepDigits (gs : List (List Char))
    (hg : ∀ g ∈ gs, ∀ c ∈ g, isDigitB c = true) :
    (sepDigits gs).filter (fun c => !(c == ',')) = gs.flatten := by
  induction gs with
  | nil => rfl
  | cons g rest ih =>
    cases rest with
    | nil =>
      simp only [sepDigits, List.flatten_cons, List.flatten_nil, List.append_nil]
      exact filter_digits g (hg g (List.mem_cons_self g []))
    | cons g2 rs =>
      rw [sepDigits, List.filter_append, List.filter_cons, if_neg (by simp),
          filter_digits g (hg g (List.mem_cons_self g (g2 :: rs))),
          ih (fun g1 h1 => hg g1 (List.mem_cons_of_mem g h1))]
      simp [List.flatten_cons]

/-- A string built from a nonempty character list is nonempty. -/
theorem stringMk_ne_empty (c : Char) (l : List Char) : String.mk (c :: l) ≠ "" := by
  intro h
  have h2 : (c :: l) = ("".data) := congrArg String.data h
  simp at h2

/-- Workhorse for the parsing claim: once cleaning is known to produce some
digit-free, space-free prefix followed by the separator-free numeral, the
price parser returns the numeral's value (given the plausibility floor is
cleared). -/
theorem extractPrice_of_clean (s : String) (gs : List (List Char)) (frac : List Char)
    (kept : List Char)
    (hclean : cleanChars s.data = kept ++ (gs.flatten ++ dotPart frac))
    (hkept_nodigit : ∀ c ∈ kept, isDigitB c = false)
    (hkept_nospace : ∀ c ∈ kept, isJsSpace c = false)
    (hne : s ≠ "")
    (hgs : gs ≠ []) (hg : ∀ g ∈ gs, g ≠ [] ∧ ∀ c ∈ g, isDigitB c = true)
    (hf : ∀ c ∈ frac, isDigitB c = true)
    (hval : 100 ≤ numeralVal gs frac) :
    extractPrice s = some (numeralVal gs frac) := by
  have hd_digits : ∀ c ∈ gs.flatten, isDigitB c = true := by
    intro c hc
    rcases List.mem_flatten.mp hc with ⟨g, hg1, hc1⟩
    exact (hg g hg1).2 c hc1
  have hd_ne : gs.flatten ≠ [] := by
    cases gs with
    | nil => exact absurd rfl hgs
    | cons g rest =>
      have hgne := (hg g (List.mem_cons_self g rest)).1
      rw [List.flatten_cons]
      simp [List.append_eq_nil, hgne]
  have htrim : jsTrim (cleanChars s.data) = kept ++ (gs.flatten ++ dotPart frac) := by
    rw [hclean]
    apply jsTrim_of_no_space
    intro c hc
    rcases List.mem_append.mp hc with h1 | h2
    · exact hkept_nospace c h1
    · rcases List.mem_append.mp h2 with h3 | h4
      · exact digit_not_space c (hd_digits c h3)
      · rw [dotPart] at h4
        by_cases hfr : frac = []
        · rw [if_pos hfr] at h4
          simp at h4
        · rw [if_neg hfr] at h4
          rcases List.mem_cons.mp h4 with rfl | h5
          · decide
          · exact digit_not_space c (hf c h5)
  have hskip : ∀ (pre : List Char), (∀ c ∈ pre, isDigitB c = false) →
      firstNumericValue (pre ++ (gs.flatten ++ dotPart frac)) =
        firstNumericValue (gs.flatten ++ dotPart frac) := by
    intro pre hpre
    induction pre with
    | nil => rfl
    | cons c r ih =>
      rw [List.cons_append, fnv_skip c _ (hpre c (List.mem_cons_self c r))]
      exact ih (fun x hx => hpre x (List.mem_cons_of_mem c hx))
  have hfnv : firstNumericValue (jsTrim (cleanChars s.data)) = some (numeralVal gs frac) := by
    rw [htrim, hskip kept hkept_nodigit]
    by_cases hfr : frac = []
    · subst hfr
      rw [dotPart, if_pos rfl, List.append_nil, fnv_int gs.flatten hd_digits hd_ne]
      have hz : numeralVal gs [] = (digitsToNat gs.flatten : ℚ) := by
        rw [numeralVal,
            show mkRat (digitsToNat ([] : List Char)) (10 ^ ([] : List Char).length) = 0
              from by decide]
        exact add_zero _
      rw [hz]
    · rw [dotPart, if_neg hfr, fnv_frac gs.flatten frac hd_digits hd_ne hf hfr]
      rfl
  have hnlt : ¬(numeralVal gs frac ≠ 0 ∧ numeralVal gs frac < 100) := by
    rintro ⟨_, hlt⟩
    exact absurd hlt (not_lt.mpr (le_trans (by norm_num) hval))
  rw [extractPrice, if_neg hne, hfnv]
  dsimp only
  rw [if_neg hnlt]

/-- Claim C7 counterexample: `"KSh 54"` is of the claimed form
(currency token, space, digits) with numeric value 54, yet the Price Parser
rejects it (plausibility floor) instead of returning 54. -/
theorem claim_C7_counterexample :
    priceFormStr "KSh" 1 [['5', '4']] [] = "KSh 54" ∧
    numeralVal [['5', '4']] [] = 54 ∧
    extractPrice "KSh 54" = none := by decide

/-- Claim C7 (amended): for every price string of the form
currency-token, then at least one space, then digit groups with optional
comma thousands separators and an optional decimal part, the Price Parser
returns the numeric value with tokens and separators removed — provided
that value clears the plausibility floor of 100 (values below the floor are
rejected, per the floor rule). -/
theorem claim_C7_amended (tok : String) (htok : tok ∈ currencyTokens) (n : Nat)
    (gs : List (List Char)) (frac : List Char) (hn : 0 < n) (hgs : gs ≠ [])
    (hg : ∀ g ∈ gs, g ≠ [] ∧ ∀ c ∈ g, isDigitB c = true)
    (hf : ∀ c ∈ frac, isDigitB c = true) (hval : 100 ≤ numeralVal gs frac) :
    extractPrice (priceFormStr tok n gs frac) = some (numeralVal gs frac) := by
  obtain ⟨m, rfl⟩ : ∃ m, n = m + 1 := ⟨n - 1, (Nat.succ_pred_eq_of_pos hn).symm⟩
  have hnum : ∀ c ∈ sepDigits gs ++ dotPart frac, isDigitB c = true ∨ c = ',' ∨ c = '.' := by
    intro c hc
    rcases List.mem_append.mp hc with h1 | h2
    · rcases mem_sepDigits gs c h1 with ⟨g, hg1, hc1⟩ | rfl
      · exact Or.inl ((hg g hg1).2 c hc1)
      · exact Or.inr (Or.inl rfl)
    · rw [dotPart] at h2
      by_cases hfr : frac = []
      · rw [if_pos hfr] at h2
        simp at h2
      · rw [if_neg hfr] at h2
        rcases List.mem_cons.mp h2 with rfl | h3
        · exact Or.inr (Or.inr rfl)
        · exact Or.inl (hf c h3)
  have hcleannum : cleanChars (sepDigits gs ++ dotPart frac) = gs.flatten ++ dotPart frac := by
    rw [clean_numeral _ hnum, List.filter_append, filter_sepDigits gs (fun g h => (hg g h).2)]
    congr 1
    rw [dotPart]
    by_cases hfr : frac = []
    · rw [if_pos hfr]
      rfl
    · rw [if_neg hfr, List.filter_cons, if_pos (by decide), filter_digits frac hf]
  fin_cases htok
  · have hdata : (priceFormStr "KSh" (m + 1) gs frac).data =
        'K' :: 'S' :: 'h' :: ' ' :: (List.replicate m ' ' ++ (sepDigits gs ++ dotPart frac)) := by
      simp [priceFormStr, List.replicate_succ]
    refine extractPrice_of_clean _ gs frac [] ?_ (by simp) (by simp) ?_ hgs hg hf hval
    · rw [hdata, clean_tok_KSh, clean_spaces, hcleannum, List.nil_append]
    · intro hempty
      rw [hempty] at hdata
      simp at hdata
  · have hdata : (priceFormStr "KSH" (m + 1) gs frac).data =
        'K' :: 'S' :: 'H' :: ' ' :: (List.replicate m ' ' ++ (sepDigits gs ++ dotPart frac)) := by
      simp [priceFormStr, List.replicate_succ]
    refine extractPrice_of_clean _ gs frac [] ?_ (by simp) (by simp) ?_ hgs hg hf hval
    · rw [hdata, clean_tok_KSH, clean_spaces, hcleannum, List.nil_append]
    · intro hempty
      rw [hempty] at hdata
      simp at hdata
  · have hdata : (priceFormStr "Ksh" (m + 1) gs frac).data =
        'K' :: 's' :: 'h' :: ' ' :: (List.replicate m ' ' ++ (sepDigits gs ++ dotPart frac)) := by
      simp [priceFormStr, List.replicate_succ]
    refine extractPrice_of_clean _ gs frac [] ?_ (by simp) (by simp) ?_ hgs hg hf hval
    · rw [hdata, clean_tok_Ksh, clean_spaces, hcleannum, List.nil_append]
    · intro hempty
      rw [hempty] at hdata
      simp at hdata
  · have hdata : (priceFormStr "ksh" (m + 1) gs frac).data =
        'k' :: 's' :: 'h' :: ' ' :: (List.replicate m ' ' ++ (sepDigits gs ++ dotPart frac)) := by
      simp [priceFormStr, List.replicate_succ]
    refine extractPrice_of_clean _ gs frac [] ?_ (by simp) (by simp) ?_ hgs hg hf hval
    · rw [hdata, clean_tok_ksh, clean_spaces, hcleannum, List.nil_append]
    · intro hempty
      rw [hempty] at hdata
      simp at hdata
  · have hdata : (priceFormStr "KES" (m + 1) gs frac).data =
        'K' :: 'E' :: 'S' :: ' ' :: (List.replicate m ' ' ++ (sepDigits gs ++ dotPart frac)) := by
      simp [priceFormStr, List.replicate_succ]
    refine extractPrice_of_clean _ gs frac ['K', 'E', 'S'] ?_ ?_ ?_ ?_ hgs hg hf hval
    · rw [hdata, clean_tok_KES, clean_spaces, hcleannum]
      rfl
    · intro c hc
      rcases (by simpa using hc : c = 'K' ∨ c = 'E' ∨ c = 'S') with rfl | rfl | rfl <;> decide
    · intro c hc
      rcases (by simpa using hc : c = 'K' ∨ c = 'E' ∨ c = 'S') with rfl | rfl | rfl <;> decide
    · intro hempty
      rw [hempty] at hdata
      simp at hdata
  · have hdata : (priceFormStr "Sh" (m + 1) gs frac).data =
        'S' :: 'h' :: ' ' :: (List.replicate m ' ' ++ (sepDigits gs ++ dotPart frac)) := by
      simp [priceFormStr, List.replicate_succ]
    refine extractPrice_of_clean _ gs frac [] ?_ (by simp) (by simp) ?_ hgs hg hf hval
    · rw [hdata, clean_tok_Sh, clean_spaces, hcleannum, List.nil_append]
    · intro hempty
      rw [hempty] at hdata
      simp at hdata
  · have hdata : (priceFormStr "Shs" (m + 1) gs frac).data =
        'S' :: 'h' :: 's' :: ' ' :: (List.replicate m ' ' ++ (sepDigits gs ++ dotPart frac)) := by
      simp [priceFormStr, List.replicate_succ]
    refine extractPrice_of_clean _ gs frac [] ?_ (by simp) (by simp) ?_ hgs hg hf hval
    · rw [hdata, clean_tok_Shs, clean_spaces, hcleannum, List.nil_append]
    · intro hempty
      rw [hempty] at hdata
      simp at hdata

/-- Claim C7 witness: `"KSh 8,500"` parses to 8500. -/
theorem claim_C7_witness : extractPrice "KSh 8,500" = some 8500 := by
  have h := claim_C7_amended "KSh" (by decide) 1 [['8'], ['5', '0', '0']] []
    (by decide) (by decide) (by decide) (by decide) (by decide)
  rw [show priceFormStr "KSh" 1 [['8'], ['5', '0', '0']] [] = "KSh 8,500" from by decide,
      show numeralVal [['8'], ['5', '0', '0']] [] = 8500 from by decide] at h
  exact h
